import Mathlib

/-!
Shallow embedding of the BPMN-style token execution engine
(src/bpmn_engine: Token.h, ProcessContext.h, Activity.h, Gateway.h).

Simulated time (C++ `double`) is modelled as `ℚ`; `std::map` is modelled
as an association list with unique-key insert/update semantics; pointers
returned by lookup become `Option`; text written to `std::cerr` is
collected in an explicit error log.
-/

namespace BPMN

/-- Lookup in an association list, mirroring `std::map::find`. -/
def assocFind {α : Type} : List (String × α) → String → Option α
  | [], _ => none
  | (k, v) :: rest, key => if k == key then some v else assocFind rest key

/-- Insert-or-replace, mirroring `std::map::operator[] = value`. -/
def assocInsert {α : Type} : List (String × α) → String → α → List (String × α)
  | [], key, val => [(key, val)]
  | (k, v) :: rest, key, val =>
      if k == key then (k, val) :: rest else (k, v) :: assocInsert rest key val

/-- Update the entry at `key` in place, mirroring mutation through the
pointer returned by `std::map::find`. -/
def assocUpdate {α : Type} : List (String × α) → String → (α → α) → List (String × α)
  | [], _, _ => []
  | (k, v) :: rest, key, f =>
      if k == key then (k, f v) :: rest else (k, v) :: assocUpdate rest key f

/-- Token.h: per-case execution state. -/
structure Token where
  candidateId : Int
  data : List (String × String)
  startTime : ℚ
  currentTime : ℚ
  completed : Bool
  endReason : String
deriving DecidableEq

/-- Token.h constructor: `Token(id, startTime)`. -/
def Token.init (id : Int) (startTime : ℚ) : Token :=
  { candidateId := id, data := [], startTime := startTime, currentTime := startTime,
    completed := false, endReason := "" }

/-- Token.h: `getCycleTime() { return currentTime - startTime; }`. -/
def Token.getCycleTime (t : Token) : ℚ := t.currentTime - t.startTime

/-- Token.h: `setData(key, value) { data[key] = value; }`. -/
def Token.setData (t : Token) (key value : String) : Token :=
  { t with data := assocInsert t.data key value }

/-- Token.h: `getData` returns the mapped value via `data.find(key)`,
or the empty string when the key is absent (a `const` method). -/
def Token.getData (t : Token) (key : String) : String :=
  match assocFind t.data key with
  | some v => v
  | none => ""

/-- Token.h: `advanceTime(minutes) { currentTime += minutes; }` —
no sign check on the argument. -/
def Token.advanceTime (t : Token) (minutes : ℚ) : Token :=
  { t with currentTime := t.currentTime + minutes }

/-- Token.h: `complete(reason) { completed = true; endReason = reason; }` —
unconditional, no already-completed guard. -/
def Token.complete (t : Token) (reason : String) : Token :=
  { t with completed := true, endReason := reason }

/-- Iterated `advanceTime` over a list of durations. -/
def Token.advanceAll (t : Token) (ms : List ℚ) : Token :=
  ms.foldl Token.advanceTime t

/-- ProcessContext.h: `struct Resource`. -/
structure Resource where
  name : String
  totalAvailable : Int
  currentlyUsed : Int
  costPerHour : ℚ
  totalCost : ℚ
  totalTimeUsed : ℚ
deriving DecidableEq

/-- ProcessContext.h: `Resource(n, available, cost)`. -/
def Resource.init (n : String) (available : Int) (cost : ℚ) : Resource :=
  { name := n, totalAvailable := available, currentlyUsed := 0,
    costPerHour := cost, totalCost := 0, totalTimeUsed := 0 }

/-- ProcessContext.h: `isAvailable() { return currentlyUsed < totalAvailable; }`. -/
def Resource.isAvailable (r : Resource) : Bool :=
  r.currentlyUsed < r.totalAvailable

/-- ProcessContext.h: `acquire() { if (isAvailable()) currentlyUsed++; }` —
a silent no-op when capacity is exhausted. -/
def Resource.acquire (r : Resource) : Resource :=
  if r.isAvailable then { r with currentlyUsed := r.currentlyUsed + 1 } else r

/-- ProcessContext.h: `release() { if (currentlyUsed > 0) currentlyUsed--; }`. -/
def Resource.release (r : Resource) : Resource :=
  if r.currentlyUsed > 0 then { r with currentlyUsed := r.currentlyUsed - 1 } else r

/-- ProcessContext.h: `addUsage(minutes)` accumulates time and cost. -/
def Resource.addUsage (r : Resource) (minutes : ℚ) : Resource :=
  { r with totalTimeUsed := r.totalTimeUsed + minutes,
           totalCost := r.totalCost + minutes / 60 * r.costPerHour }

/-- The mutating operations a `Resource` is subjected to during a run. -/
inductive ResOp where
  | acquire
  | release
  | addUsage (minutes : ℚ)

/-- Apply one resource operation. -/
def Resource.applyOp (r : Resource) : ResOp → Resource
  | ResOp.acquire => r.acquire
  | ResOp.release => r.release
  | ResOp.addUsage m => r.addUsage m

/-- Apply a sequence of resource operations from left to right. -/
def Resource.run (r : Resource) (ops : List ResOp) : Resource :=
  ops.foldl Resource.applyOp r

/-- ProcessContext.h: resources, simulation time and metrics. -/
structure ProcessContext where
  resources : List (String × Resource)
  currentSimulationTime : ℚ
  tokensStarted : Int
  tokensCompleted : Int
  endReasons : List (String × Int)
deriving DecidableEq

/-- ProcessContext.h constructor. -/
def ProcessContext.init : ProcessContext :=
  { resources := [], currentSimulationTime := 0, tokensStarted := 0,
    tokensCompleted := 0, endReasons := [] }

/-- ProcessContext.h: `addResource` via `resources.emplace(name, ...)` —
`emplace` leaves an existing key untouched. -/
def ProcessContext.addResource (c : ProcessContext) (name : String)
    (quantity : Int) (costPerHour : ℚ) : ProcessContext :=
  match assocFind c.resources name with
  | some _ => c
  | none =>
      { c with resources := c.resources ++ [(name, Resource.init name quantity costPerHour)] }

/-- ProcessContext.h: `getResource` returns a pointer, `nullptr` when absent. -/
def ProcessContext.getResource (c : ProcessContext) (name : String) : Option Resource :=
  assocFind c.resources name

/-- Mutation of one registered resource through the pointer
returned by `getResource`. -/
def ProcessContext.updateResource (c : ProcessContext) (name : String)
    (f : Resource → Resource) : ProcessContext :=
  { c with resources := assocUpdate c.resources name f }

/-- ProcessContext.h: `setCurrentTime(time)`. -/
def ProcessContext.setCurrentTime (c : ProcessContext) (time : ℚ) : ProcessContext :=
  { c with currentSimulationTime := time }

/-- ProcessContext.h: `tokenStarted() { tokensStarted++; }`. -/
def ProcessContext.tokenStarted (c : ProcessContext) : ProcessContext :=
  { c with tokensStarted := c.tokensStarted + 1 }

/-- `endReasons[reason]++`: `std::map::operator[]` default-constructs the
count at 0 for a new reason, then increments. -/
def bumpReason : List (String × Int) → String → List (String × Int)
  | [], reason => [(reason, 1)]
  | (k, v) :: rest, reason =>
      if k == reason then (k, v + 1) :: rest else (k, v) :: bumpReason rest reason

/-- ProcessContext.h: `tokenCompleted(reason)` increments the counter and
the histogram entry together. -/
def ProcessContext.tokenCompleted (c : ProcessContext) (reason : String) : ProcessContext :=
  { c with tokensCompleted := c.tokensCompleted + 1,
           endReasons := bumpReason c.endReasons reason }

/-- Every mutating operation the engine performs on a `ProcessContext`. -/
inductive CtxOp where
  | started
  | completed (reason : String)
  | addResource (name : String) (quantity : Int) (costPerHour : ℚ)
  | setCurrentTime (time : ℚ)
  | touchResource (name : String) (f : Resource → Resource)

/-- Apply one context operation. -/
def ProcessContext.applyOp (c : ProcessContext) : CtxOp → ProcessContext
  | CtxOp.started => c.tokenStarted
  | CtxOp.completed reason => c.tokenCompleted reason
  | CtxOp.addResource name q cost => c.addResource name q cost
  | CtxOp.setCurrentTime time => c.setCurrentTime time
  | CtxOp.touchResource name f => c.updateResource name f

/-- Apply a sequence of context operations from left to right. -/
def ProcessContext.runOps (c : ProcessContext) (ops : List CtxOp) : ProcessContext :=
  ops.foldl ProcessContext.applyOp c

/-- Sum of the values of the end-reason histogram. -/
def histSum : List (String × Int) → Int
  | [] => 0
  | (_, v) :: rest => v + histSum rest

/-- Gateway.h: `ExclusiveGateway::Rule` — target nodes are referenced by id. -/
structure Rule where
  name : String
  condition : Token → Bool
  nextNode : String

/-- Gateway.h: the rule loop of `ExclusiveGateway::execute`, instrumented
with the list of rule names whose condition the loop evaluates. The loop
stops at the first condition returning true. -/
def evalRules : List Rule → Token → List String × Option Rule
  | [], _ => ([], none)
  | r :: rest, t =>
      if r.condition t then ([r.name], some r)
      else
        let p := evalRules rest t
        (r.name :: p.1, p.2)

/-- Gateway.h: `ExclusiveGateway` — ordered rules plus optional default. -/
structure ExclusiveGateway where
  id : String
  name : String
  rules : List Rule
  defaultFlow : Option String

/-- The routing decision made by `ExclusiveGateway::execute`. -/
inductive XorOutcome where
  | route (ruleName target : String)
  | defaultRoute (target : String)
  | noExit
deriving DecidableEq

/-- Gateway.h: `ExclusiveGateway::execute` — first matching rule wins,
else the default flow, else the token is stuck. -/
def ExclusiveGateway.execute (g : ExclusiveGateway) (t : Token) : XorOutcome :=
  match (evalRules g.rules t).2 with
  | some r => XorOutcome.route r.name r.nextNode
  | none =>
      match g.defaultFlow with
      | some d => XorOutcome.defaultRoute d
      | none => XorOutcome.noExit

/-- Names of the rules whose condition is evaluated during one execute. -/
def ExclusiveGateway.evaluatedRules (g : ExclusiveGateway) (t : Token) : List String :=
  (evalRules g.rules t).1

/-- The concrete node variants of the engine (Activity.h, Gateway.h). -/
inductive NodeKind where
  | startEvent
  | endEvent
  | activity (processingTime : ℚ) (resourceName : String)
  | exclusiveGateway (rules : List Rule) (defaultFlow : Option String)
  | parallelGateway (isDivergence : Bool)

/-- BPMNElement.h: id, display name, kind and outgoing edges (by node id). -/
structure Node where
  id : String
  name : String
  kind : NodeKind
  outgoing : List String

/-- State threaded through `execute`: the token, the shared context, and
the lines written to `std::cerr`. -/
structure EngineState where
  token : Token
  ctx : ProcessContext
  errLog : List String
deriving DecidableEq

/-- Activity.h: the `std::cerr` line for an unregistered resource —
it names the resource only, not the case. -/
def resourceNotFoundMsg (resourceName : String) : String :=
  "ERROR: Recurso " ++ resourceName ++ " no encontrado"

/-- Gateway.h: the `std::cerr` line for a token stuck at an exclusive
gateway — it names the token and the gateway. -/
def noExitMsg (gatewayName : String) (candidateId : Int) : String :=
  "[ERROR] Token #" ++ toString candidateId ++ " sin salida valida en Gateway " ++ gatewayName

/-- Gateway.h: the follow-up suggestion line printed with `noExitMsg`. -/
def noExitHintMsg : String :=
  "  Sugerencia: Agrega un setDefaultPath() para manejar casos no contemplados"

/-- Find a node by id in the element graph. -/
def getNode (g : List Node) (nid : String) : Option Node :=
  g.find? (fun n => n.id == nid)

/-- One virtual `execute(token, context)` dispatch, with fuel bounding the
call-stack depth (the C++ recursion is bounded only by the stack). Mirrors
`Event::execute`, `Activity::execute`, `ExclusiveGateway::execute` and
`ParallelGateway::execute`. -/
def execGo (g : List Node) (fuel : Nat) (nid : String) (s : EngineState) : EngineState :=
  match fuel with
  | 0 => s
  | fuel' + 1 =>
    match getNode g nid with
    | none => s
    | some n =>
      match n.kind with
      | NodeKind.startEvent =>
          let s1 : EngineState := { s with ctx := s.ctx.tokenStarted }
          match n.outgoing.head? with
          | some next => execGo g fuel' next s1
          | none => s1
      | NodeKind.endEvent =>
          { s with ctx := s.ctx.tokenCompleted n.name,
                   token := s.token.complete n.name }
      | NodeKind.activity time resourceName =>
          match s.ctx.getResource resourceName with
          | none => { s with errLog := s.errLog ++ [resourceNotFoundMsg resourceName] }
          | some _ =>
              let c1 := s.ctx.updateResource resourceName Resource.acquire
              let t1 := s.token.advanceTime time
              let c2 := c1.updateResource resourceName (fun r => r.addUsage time)
              let c3 := c2.updateResource resourceName Resource.release
              let s1 : EngineState := { s with token := t1, ctx := c3 }
              match n.outgoing.head? with
              | some next => execGo g fuel' next s1
              | none => s1
      | NodeKind.exclusiveGateway rules defaultFlow =>
          match (evalRules rules s.token).2 with
          | some r => execGo g fuel' r.nextNode s
          | none =>
              match defaultFlow with
              | some d => execGo g fuel' d s
              | none =>
                  { s with errLog := s.errLog ++
                      [noExitMsg n.name s.token.candidateId, noExitHintMsg] }
      | NodeKind.parallelGateway isDivergence =>
          if isDivergence then
            n.outgoing.foldl (fun acc next => execGo g fuel' next acc) s
          else
            match n.outgoing.head? with
            | some next => execGo g fuel' next s
            | none => s

/-! Concrete scenarios used as test vectors for the claims. -/

/-- A predicate that rejects every token. -/
def condFalse : Token → Bool := fun _ => false

/-- A predicate that accepts every token. -/
def condTrue : Token → Bool := fun _ => true

/-- Scenario for exclusive routing: rules r1 (false), r2 (true), r3 (true)
with a default flow set. -/
def c1Gateway : ExclusiveGateway :=
  ⟨"g1", "Filtro", [⟨"r1", condFalse, "t1"⟩, ⟨"r2", condTrue, "t2"⟩,
    ⟨"r3", condTrue, "t3"⟩], some "d"⟩

/-- Scenario for resource contention: an activity of 10 minutes on
resource A. -/
def c2Graph : List Node := [⟨"act", "Entrevista", NodeKind.activity 10 "A", []⟩]

/-- Resource A with capacity 1, already held once: capacity exhausted. -/
def c2Ctx : ProcessContext :=
  (ProcessContext.init.addResource "A" 1 0).updateResource "A" Resource.acquire

/-- A second case arriving while A is exhausted. -/
def c2Start : EngineState := ⟨Token.init 2 0, c2Ctx, []⟩

/-- Execution of the second case's activity with A exhausted. -/
def c2Result : EngineState := execGo c2Graph 10 "act" c2Start

/-- Scenario for fork/join: a parallel divergence into three activities of
1, 2 and 3 minutes, each flowing into the converge gateway, which flows
into a single end event. -/
def c3Graph : List Node :=
  [ ⟨"fork", "Fork", NodeKind.parallelGateway true, ["a1", "a2", "a3"]⟩,
    ⟨"a1", "A1", NodeKind.activity 1 "R", ["join"]⟩,
    ⟨"a2", "A2", NodeKind.activity 2 "R", ["join"]⟩,
    ⟨"a3", "A3", NodeKind.activity 3 "R", ["join"]⟩,
    ⟨"join", "Join", NodeKind.parallelGateway false, ["fin"]⟩,
    ⟨"fin", "Done", NodeKind.endEvent, []⟩ ]

/-- One case entering the fork at t = 0, with resource R amply available. -/
def c3Start : EngineState :=
  ⟨Token.init 1 0, ProcessContext.init.addResource "R" 10 0, []⟩

/-- Execution of the fork/join scenario. -/
def c3Result : EngineState := execGo c3Graph 10 "fork" c3Start

/-- Scenario for a stuck exclusive gateway: one never-matching rule and no
default flow. -/
def c7Graph : List Node :=
  [⟨"g7", "G7", NodeKind.exclusiveGateway [⟨"r1", condFalse, "t1"⟩] none, ["t1"]⟩]

/-- Token 7 entering the stuck gateway. -/
def c7Start : EngineState := ⟨Token.init 7 0, ProcessContext.init, []⟩

/-- Scenario for an unregistered resource: an activity referencing the
resource Ghost, which is not in the context, followed by an end event. -/
def c8Graph : List Node :=
  [ ⟨"act8", "Act8", NodeKind.activity 5 "Ghost", ["fin8"]⟩,
    ⟨"fin8", "DoneN", NodeKind.endEvent, []⟩ ]

/-! Helper lemmas about the exclusive-gateway rule loop. -/

/-- The rule loop returns the first rule, in insertion order, whose
condition holds. -/
theorem evalRules_result (rules : List Rule) (t : Token) :
    (evalRules rules t).2 = rules.find? (fun r => r.condition t) := by
  induction rules with
  | nil => rfl
  | cons r rest ih =>
      cases hc : r.condition t <;> simp [evalRules, List.find?, hc, ih]

/-- When a rule matches, the loop evaluates exactly the non-matching
prefix plus the first matching rule, and nothing after it. -/
theorem evalRules_trace_of_found (rules : List Rule) (t : Token) (r : Rule)
    (h : rules.find? (fun rl => rl.condition t) = some r) :
    (evalRules rules t).1
      = (rules.takeWhile (fun rl => !rl.condition t)).map Rule.name ++ [r.name] := by
  induction rules with
  | nil => simp [List.find?] at h
  | cons r0 rest ih =>
      cases hc : r0.condition t with
      | true =>
          have hr : r0 = r := by
            have := h
            simp [List.find?, hc] at this
            exact this
          subst hr
          simp [evalRules, List.takeWhile, hc]
      | false =>
          have h' : rest.find? (fun rl => rl.condition t) = some r := by
            have := h
            simpa [List.find?, hc] using this
          simp [evalRules, List.takeWhile, hc, ih h']

/-- When no rule matches, the loop evaluates every rule. -/
theorem evalRules_trace_of_none (rules : List Rule) (t : Token)
    (h : rules.find? (fun rl => rl.condition t) = none) :
    (evalRules rules t).1 = rules.map Rule.name := by
  induction rules with
  | nil => rfl
  | cons r0 rest ih =>
      cases hc : r0.condition t with
      | true => simp [List.find?, hc] at h
      | false =>
          have h' : rest.find? (fun rl => rl.condition t) = none := by
            simpa [List.find?, hc] using h
          simp [evalRules, hc, ih h']

/-- C1: on an ExclusiveGateway visit, rule predicates are evaluated in
insertion order over the token; the first predicate returning true
determines the sole next node, no predicate after the first match is
evaluated (the evaluation trace is the non-matching prefix plus the match),
and the default flow is taken only when no predicate matches. -/
theorem exclusiveGateway_first_match (g : ExclusiveGateway) (t : Token) :
    (∀ r : Rule, g.rules.find? (fun rl => rl.condition t) = some r →
        g.execute t = XorOutcome.route r.name r.nextNode ∧
        g.evaluatedRules t
          = (g.rules.takeWhile (fun rl => !rl.condition t)).map Rule.name ++ [r.name]) ∧
    (g.rules.find? (fun rl => rl.condition t) = none →
        g.evaluatedRules t = g.rules.map Rule.name ∧
        (∀ d, g.defaultFlow = some d → g.execute t = XorOutcome.defaultRoute d) ∧
        (g.defaultFlow = none → g.execute t = XorOutcome.noExit)) := by
  refine ⟨fun r hr => ⟨?_, evalRules_trace_of_found _ _ _ hr⟩,
    fun hn => ⟨evalRules_trace_of_none _ _ hn, fun d hd => ?_, fun hd => ?_⟩⟩
  · simp [ExclusiveGateway.execute, evalRules_result, hr]
  · simp [ExclusiveGateway.execute, evalRules_result, hn, hd]
  · simp [ExclusiveGateway.execute, evalRules_result, hn, hd]

/-- C1 witness: for rules r1 (false), r2 (true), r3 (true) with a default
set, the gateway routes to the target of r2, evaluates only r1 and r2
(never r3), and does not reach the default. -/
theorem exclusiveGateway_first_match_witness :
    c1Gateway.execute (Token.init 1 0) = XorOutcome.route "r2" "t2" ∧
    c1Gateway.evaluatedRules (Token.init 1 0) = ["r1", "r2"] := by
  have h := (exclusiveGateway_first_match c1Gateway (Token.init 1 0)).1
      ⟨"r2", condTrue, "t2"⟩ rfl
  exact ⟨h.1, h.2.trans rfl⟩

/-- C5 counterexample: `complete` called twice overwrites the first end
reason with the second, so the second call is not a no-op. -/
theorem complete_second_call_overwrites_cex :
    (((Token.init 1 0).complete "Contratado").complete "Rechazado - Fase 1").endReason
      = "Rechazado - Fase 1" ∧
    (((Token.init 1 0).complete "Contratado").complete "Rechazado - Fase 1").endReason
      ≠ "Contratado" ∧
    (((Token.init 1 0).complete "Contratado").complete "Rechazado - Fase 1").completed
      = true := by decide

/-- C5 amended: `complete(reason)` unconditionally sets the completed flag
and overwrites the end reason with the latest reason, also when the token
is already completed. -/
theorem complete_always_overwrites (t : Token) (r1 r2 : String) :
    ((t.complete r1).complete r2).completed = true ∧
    ((t.complete r1).complete r2).endReason = r2 ∧
    (t.complete r2).endReason = r2 ∧
    ((t.complete r1).complete r2).currentTime = t.currentTime :=
  ⟨rfl, rfl, rfl, rfl⟩

/-- C6 counterexample: `advanceTime` accepts a negative delta without any
check, the clock moves backwards, and the cycle time at completion is
negative. -/
theorem advanceTime_negative_cex :
    ((Token.init 1 10).advanceTime (-4)).currentTime < (Token.init 1 10).currentTime ∧
    (((Token.init 1 10).advanceTime (-4)).complete "End").getCycleTime < 0 := by
  have h1 : ((Token.init 1 10).advanceTime (-4)).currentTime = ((10 : ℚ) + (-4)) := rfl
  have h2 : (Token.init 1 10).currentTime = (10 : ℚ) := rfl
  have h3 : (((Token.init 1 10).advanceTime (-4)).complete "End").getCycleTime
      = ((10 : ℚ) + (-4)) - 10 := rfl
  constructor
  · rw [h1, h2]; norm_num
  · rw [h3]; norm_num

/-- Monotonicity of iterated `advanceTime` under non-negative deltas. -/
theorem advanceAll_mono (ms : List ℚ) (t : Token) (hms : ∀ m ∈ ms, 0 ≤ m) :
    t.currentTime ≤ (t.advanceAll ms).currentTime ∧
    (t.advanceAll ms).startTime = t.startTime := by
  induction ms generalizing t with
  | nil => exact ⟨le_refl _, rfl⟩
  | cons m rest ih =>
      have hm : 0 ≤ m := hms m (by simp)
      have hrest : ∀ x ∈ rest, 0 ≤ x := fun x hx => hms x (by simp [hx])
      have hstep : t.currentTime ≤ (t.advanceTime m).currentTime := by
        simp only [Token.advanceTime]
        linarith
      have hunfold : t.advanceAll (m :: rest) = (t.advanceTime m).advanceAll rest := rfl
      have h := ih (t.advanceTime m) hrest
      rw [hunfold]
      exact ⟨le_trans hstep h.1, h.2.trans rfl⟩

/-- C6 amended: `advanceTime` performs `currentTime += minutes`
unconditionally, with no sign check and no failure on negative input; only
when every applied delta is non-negative is `currentTime` non-decreasing,
and then the cycle time at completion is non-negative. -/
theorem advanceTime_adds_unconditionally (t : Token) (ms : List ℚ)
    (hms : ∀ m ∈ ms, 0 ≤ m) (hstart : t.startTime ≤ t.currentTime) :
    (∀ m : ℚ, (t.advanceTime m).currentTime = t.currentTime + m) ∧
    t.currentTime ≤ (t.advanceAll ms).currentTime ∧
    0 ≤ ((t.advanceAll ms).complete "End").getCycleTime := by
  have h := advanceAll_mono ms t hms
  refine ⟨fun m => rfl, h.1, ?_⟩
  have hcy : ((t.advanceAll ms).complete "End").getCycleTime
      = (t.advanceAll ms).currentTime - (t.advanceAll ms).startTime := rfl
  rw [hcy, h.2]
  have := le_trans hstart h.1
  linarith

/-- C6 witness: from a token created at time 0, advancing by 3 then 5
keeps the clock non-decreasing and the completion cycle time
non-negative. -/
theorem advanceTime_adds_unconditionally_witness :
    (Token.init 1 0).currentTime ≤ ((Token.init 1 0).advanceAll [3, 5]).currentTime ∧
    0 ≤ (((Token.init 1 0).advanceAll [3, 5]).complete "End").getCycleTime := by
  have h := advanceTime_adds_unconditionally (Token.init 1 0) [3, 5]
      (by decide) (by decide)
  exact ⟨h.2.1, h.2.2⟩

/-- C10: `getData` is total — it returns the stored value for a present
key and the empty string for an absent key, never failing; being a `const`
lookup through `data.find`, it is a pure function of the token and leaves
the data bag untouched. -/
theorem getData_total_default (t : Token) (key : String) :
    (assocFind t.data key = none → t.getData key = "") ∧
    (∀ v, assocFind t.data key = some v → t.getData key = v) := by
  constructor
  · intro h; simp [Token.getData, h]
  · intro v h; simp [Token.getData, h]

/-- C10 witness: on a token holding only the key phase, looking up the
absent key salary yields the empty string and looking up phase yields its
value. -/
theorem getData_total_default_witness :
    ((Token.init 3 0).setData "phase" "1").getData "salary" = "" ∧
    ((Token.init 3 0).setData "phase" "1").getData "phase" = "1" :=
  ⟨(getData_total_default ((Token.init 3 0).setData "phase" "1") "salary").1 (by decide),
   (getData_total_default ((Token.init 3 0).setData "phase" "1") "phase").2 "1" (by decide)⟩

/-- One resource operation preserves `0 ≤ currentlyUsed ≤ totalAvailable`
and never changes the capacity. -/
theorem applyOp_invariant (r : Resource) (op : ResOp)
    (h0 : 0 ≤ r.currentlyUsed) (h1 : r.currentlyUsed ≤ r.totalAvailable) :
    0 ≤ (r.applyOp op).currentlyUsed ∧
    (r.applyOp op).currentlyUsed ≤ (r.applyOp op).totalAvailable ∧
    (r.applyOp op).totalAvailable = r.totalAvailable := by
  cases op with
  | acquire =>
      simp only [Resource.applyOp, Resource.acquire, Resource.isAvailable]
      split_ifs with h
      · simp only [decide_eq_true_eq] at h
        exact ⟨by show (0 : Int) ≤ r.currentlyUsed + 1; omega,
          by show r.currentlyUsed + 1 ≤ r.totalAvailable; omega, rfl⟩
      · exact ⟨h0, h1, rfl⟩
  | release =>
      simp only [Resource.applyOp, Resource.release]
      split_ifs with h
      · exact ⟨by show (0 : Int) ≤ r.currentlyUsed - 1; omega,
          by show r.currentlyUsed - 1 ≤ r.totalAvailable; omega, rfl⟩
      · exact ⟨h0, h1, rfl⟩
  | addUsage m => exact ⟨h0, h1, rfl⟩

/-- The invariant holds after any sequence of resource operations. -/
theorem run_invariant (ops : List ResOp) (r : Resource)
    (h0 : 0 ≤ r.currentlyUsed) (h1 : r.currentlyUsed ≤ r.totalAvailable) :
    0 ≤ (r.run ops).currentlyUsed ∧
    (r.run ops).currentlyUsed ≤ (r.run ops).totalAvailable ∧
    (r.run ops).totalAvailable = r.totalAvailable := by
  induction ops generalizing r with
  | nil => exact ⟨h0, h1, rfl⟩
  | cons op rest ih =>
      have hstep := applyOp_invariant r op h0 h1
      have hunfold : r.run (op :: rest) = (r.applyOp op).run rest := rfl
      rw [hunfold]
      have h := ih (r.applyOp op) hstep.1 hstep.2.1
      exact ⟨h.1, h.2.1, h.2.2.trans hstep.2.2⟩

/-- C4: from construction with capacity at least 1, every sequence of
acquire / release / addUsage operations keeps
`0 ≤ currentlyUsed ≤ capacity`: acquire never pushes the count above the
capacity and release never below zero. -/
theorem resource_used_within_capacity (n : String) (cap : Int) (cost : ℚ)
    (ops : List ResOp) (hcap : 1 ≤ cap) :
    0 ≤ ((Resource.init n cap cost).run ops).currentlyUsed ∧
    ((Resource.init n cap cost).run ops).currentlyUsed ≤ cap := by
  have h := run_invariant ops (Resource.init n cap cost)
      (show (0 : Int) ≤ 0 from le_refl 0) (by show (0 : Int) ≤ cap; omega)
  exact ⟨h.1, h.2.1.trans (le_of_eq h.2.2)⟩

/-- C4 witness: capacity 1, with two acquires, a usage record and three
releases applied in order — the in-use count stays within [0, 1]. -/
theorem resource_used_within_capacity_witness :
    0 ≤ ((Resource.init "A" 1 0).run
        [ResOp.acquire, ResOp.acquire, ResOp.addUsage 5,
         ResOp.release, ResOp.release, ResOp.release]).currentlyUsed ∧
    ((Resource.init "A" 1 0).run
        [ResOp.acquire, ResOp.acquire, ResOp.addUsage 5,
         ResOp.release, ResOp.release, ResOp.release]).currentlyUsed ≤ 1 :=
  resource_used_within_capacity "A" 1 0
    [ResOp.acquire, ResOp.acquire, ResOp.addUsage 5,
     ResOp.release, ResOp.release, ResOp.release] (by decide)

/-- Incrementing a histogram entry raises the total by exactly one. -/
theorem histSum_bumpReason (l : List (String × Int)) (reason : String) :
    histSum (bumpReason l reason) = histSum l + 1 := by
  induction l with
  | nil => rfl
  | cons kv rest ih =>
      obtain ⟨k, v⟩ := kv
      by_cases hk : (k == reason) = true
      · simp [bumpReason, hk, histSum]
        omega
      · simp only [bumpReason, hk, if_false, Bool.false_eq_true, histSum, ih]
        omega

/-- One context operation preserves the histogram-sum invariant. -/
theorem applyCtxOp_invariant (c : ProcessContext) (op : CtxOp)
    (h : histSum c.endReasons = c.tokensCompleted) :
    histSum (c.applyOp op).endReasons = (c.applyOp op).tokensCompleted := by
  cases op with
  | started => exact h
  | completed reason =>
      show histSum (bumpReason c.endReasons reason) = c.tokensCompleted + 1
      rw [histSum_bumpReason, h]
  | addResource name q cost =>
      show histSum (ProcessContext.addResource c name q cost).endReasons
        = (ProcessContext.addResource c name q cost).tokensCompleted
      unfold ProcessContext.addResource
      cases assocFind c.resources name <;> exact h
  | setCurrentTime time => exact h
  | touchResource name f => exact h

/-- C9: from construction, over every sequence of context operations, the
sum of the end-reason histogram equals `tokensCompleted`; `tokenCompleted`
increments the counter and the histogram total together, and
`tokenStarted` (like the resource and clock operations) mutates
neither. -/
theorem histogram_sum_eq_completed (ops : List CtxOp) :
    histSum (ProcessContext.init.runOps ops).endReasons
      = (ProcessContext.init.runOps ops).tokensCompleted ∧
    (∀ c : ProcessContext, ∀ reason : String,
        (c.tokenCompleted reason).tokensCompleted = c.tokensCompleted + 1 ∧
        histSum (c.tokenCompleted reason).endReasons = histSum c.endReasons + 1) ∧
    (∀ c : ProcessContext,
        c.tokenStarted.tokensCompleted = c.tokensCompleted ∧
        c.tokenStarted.endReasons = c.endReasons) := by
  refine ⟨?_, fun c reason => ⟨rfl, histSum_bumpReason c.endReasons reason⟩,
    fun c => ⟨rfl, rfl⟩⟩
  have hgen : ∀ ops : List CtxOp, ∀ c : ProcessContext,
      histSum c.endReasons = c.tokensCompleted →
      histSum (c.runOps ops).endReasons = (c.runOps ops).tokensCompleted := by
    intro ops
    induction ops with
    | nil => exact fun c h => h
    | cons op rest ih =>
        intro c h
        exact ih (c.applyOp op) (applyCtxOp_invariant c op h)
  exact hgen ops ProcessContext.init rfl

/-- C2: with resource A of capacity 1 already exhausted
(`isAvailable = false`), executing a 10-minute activity on A does not
wait: the wait loop exits immediately, `acquire` silently does nothing,
the token's clock still advances by the full duration, nothing is
reported, and the trailing `release` even frees the unit held by the
other case (in-use count drops to 0). -/
theorem activity_ignores_exhausted_capacity :
    (c2Ctx.getResource "A").map Resource.isAvailable = some false ∧
    c2Result.token.currentTime = 10 ∧
    c2Result.errLog = [] ∧
    (c2Result.ctx.getResource "A").map Resource.currentlyUsed = some 0 := by
  refine ⟨by decide, ?_, by decide, by decide⟩
  have h : c2Result.token.currentTime = ((0 : ℚ) + 10) := rfl
  rw [h]; norm_num

/-- C3: for a fork into three branches of 1, 2 and 3 minutes that all
reach the converge gateway, the engine re-runs the single token
sequentially through every branch and straight through the join each
time: the final clock is the sum 6 (not the maximum 3) and the end event
past the join fires three times for the one case (not once). -/
theorem parallel_join_reexecutes_per_branch :
    c3Result.token.currentTime = 6 ∧
    c3Result.token.currentTime ≠ 3 ∧
    c3Result.ctx.tokensCompleted = 3 ∧
    c3Result.ctx.tokensCompleted ≠ 1 ∧
    c3Result.ctx.endReasons = [("Done", 3)] := by
  have h : c3Result.token.currentTime = ((((0 : ℚ) + 1) + 2) + 3) := rfl
  refine ⟨by rw [h]; norm_num, by rw [h]; norm_num, by decide, by decide, by decide⟩

/-- C7 counterexample: at an exclusive gateway with no matching rule and
no default, `execute` returns normally with the token and the context
unchanged — the error exists only as text on `std::cerr`, nothing is
reported to the caller. -/
theorem routing_error_only_logged_cex :
    execGo c7Graph 10 "g7" c7Start
      = { token := Token.init 7 0, ctx := ProcessContext.init,
          errLog := [noExitMsg "G7" 7, noExitHintMsg] } ∧
    (execGo c7Graph 10 "g7" c7Start).token.completed = false := by decide

/-- C7 amended: when no rule matches and no default flow is set, the
engine writes two `std::cerr` lines (the first naming the gateway and the
token id) and returns with the token and context untouched; no error
value reaches the caller, and the token's completed flag is left as it
was (false for a live case). -/
theorem stuck_gateway_logs_and_returns (g : List Node) (fuel' : Nat)
    (nid : String) (s : EngineState) (n : Node) (rules : List Rule)
    (hn : getNode g nid = some n)
    (hk : n.kind = NodeKind.exclusiveGateway rules none)
    (hm : (evalRules rules s.token).2 = none) :
    execGo g (fuel' + 1) nid s
      = { s with errLog := s.errLog ++ [noExitMsg n.name s.token.candidateId, noExitHintMsg] } ∧
    (execGo g (fuel' + 1) nid s).token = s.token ∧
    (execGo g (fuel' + 1) nid s).token.completed = s.token.completed := by
  have h1 : execGo g (fuel' + 1) nid s
      = { s with errLog := s.errLog ++ [noExitMsg n.name s.token.candidateId, noExitHintMsg] } := by
    simp only [execGo, hn, hk, hm]
  exact ⟨h1, by rw [h1], by rw [h1]⟩

/-- C7 witness: token 7 at the stuck gateway G7 — the run only appends the
two log lines and the token stays uncompleted. -/
theorem stuck_gateway_logs_and_returns_witness :
    execGo c7Graph 10 "g7" c7Start
      = { c7Start with errLog := c7Start.errLog ++ [noExitMsg "G7" 7, noExitHintMsg] } ∧
    (execGo c7Graph 10 "g7" c7Start).token.completed = false := by
  have h := stuck_gateway_logs_and_returns c7Graph 9 "g7" c7Start
      ⟨"g7", "G7", NodeKind.exclusiveGateway [⟨"r1", condFalse, "t1"⟩] none, ["t1"]⟩
      [⟨"r1", condFalse, "t1"⟩] rfl rfl rfl
  exact ⟨h.1.trans (by decide), h.2.2.trans rfl⟩

/-- C8 counterexample: an activity referencing the unregistered resource
Ghost logs one `std::cerr` line that names the resource but is identical
for different case ids (so the case id is not reported), no error value
propagates, and the case is dropped — the downstream end event never
runs, the token stays exactly as it was. -/
theorem missing_resource_no_case_id_cex :
    (execGo c8Graph 10 "act8" ⟨Token.init 8 0, ProcessContext.init, []⟩).errLog
      = [resourceNotFoundMsg "Ghost"] ∧
    (execGo c8Graph 10 "act8" ⟨Token.init 99 0, ProcessContext.init, []⟩).errLog
      = [resourceNotFoundMsg "Ghost"] ∧
    (execGo c8Graph 10 "act8" ⟨Token.init 8 0, ProcessContext.init, []⟩).token
      = Token.init 8 0 := by decide

/-- C8 amended: when an activity's resource name is not registered,
execution stops at first use with a single `std::cerr` line that is a
function of the resource name alone (no case id), the token and context
are left untouched (the case is dropped, never completed), and no error
value reaches the caller. -/
theorem missing_resource_logs_and_drops (g : List Node) (fuel' : Nat)
    (nid : String) (s : EngineState) (n : Node) (time : ℚ) (resName : String)
    (hn : getNode g nid = some n)
    (hk : n.kind = NodeKind.activity time resName)
    (hres : s.ctx.getResource resName = none) :
    execGo g (fuel' + 1) nid s
      = { s with errLog := s.errLog ++ [resourceNotFoundMsg resName] } ∧
    (execGo g (fuel' + 1) nid s).token = s.token ∧
    (execGo g (fuel' + 1) nid s).token.completed = s.token.completed := by
  have h1 : execGo g (fuel' + 1) nid s
      = { s with errLog := s.errLog ++ [resourceNotFoundMsg resName] } := by
    simp only [execGo, hn, hk, hres]
  exact ⟨h1, by rw [h1], by rw [h1]⟩

/-- C8 witness: token 8 at the activity referencing Ghost — the run only
appends the resource-named log line and the token stays uncompleted. -/
theorem missing_resource_logs_and_drops_witness :
    execGo c8Graph 10 "act8" ⟨Token.init 8 0, ProcessContext.init, []⟩
      = { token := Token.init 8 0, ctx := ProcessContext.init,
          errLog := [resourceNotFoundMsg "Ghost"] } ∧
    (execGo c8Graph 10 "act8" ⟨Token.init 8 0, ProcessContext.init, []⟩).token.completed
      = false := by
  have h := missing_resource_logs_and_drops c8Graph 9 "act8"
      ⟨Token.init 8 0, ProcessContext.init, []⟩
      ⟨"act8", "Act8", NodeKind.activity 5 "Ghost", ["fin8"]⟩ 5 "Ghost" rfl rfl rfl
  exact ⟨h.1.trans (by decide), h.2.2.trans rfl⟩

end BPMN
